import Mathlib

set_option linter.unusedVariables false

/-!
Shallow embedding of the goMagicMimeParser decoder
(src/pkg/magic/magic.go, first MagicReader version, and
src/pkg/domain/section.go).

Bytes are modelled as Nat (values 0..255 on real inputs), byte slices as
List Nat, and the bufio.Reader stream as the list of not-yet-consumed
bytes.  Every Go helper that touches the reader becomes a function that
takes the remaining stream and returns the stream left after the call.
-/

/-- Error values of package magic (magic.go lines 17-22).  ioError stands
for any non-EOF error surfaced by the underlying reader; a clean EOF is not
an error value here because every caller treats it as loop termination. -/
inductive MErr where
  | notMagicFormat
  | headerCorrupted
  | contentCorrupted
  | tokenNotFound
  | ioError
deriving Repr, DecidableEq

/-- Result of a Go call that can return a value, return an error, or abort
the whole program with a runtime panic (index / slice out of range), which
the constructor crash models. -/
inductive PResult (α : Type) where
  | ok (a : α)
  | err (e : MErr)
  | crash
deriving Repr, DecidableEq

/-- domain.Content (section.go lines 9-16); Value and Mask are byte
slices. -/
structure Content where
  indent : Nat
  offset : Nat
  value : List Nat
  mask : List Nat
  rangeLength : Nat
  wordSize : Nat
deriving Repr, DecidableEq

/-- domain.Section (section.go lines 3-7); Filetype is kept as the byte
list of the Go string. -/
structure Section where
  filetype : List Nat
  priority : Nat
  contents : List Content
deriving Repr, DecidableEq

/-- bytes.Cut (buff, one-byte separator del): split at the first
occurrence of del, the separator itself belonging to neither part.
none models the found = false return. -/
def cutByte : List Nat → Nat → Option (List Nat × List Nat)
  | [], _ => none
  | b :: rest, del =>
    if b = del then some ([], rest)
    else
      match cutByte rest del with
      | some (l, r) => some (b :: l, r)
      | none => none

/-- unicode.IsDigit applied to rune(b) for a byte b: the only category-Nd
code points below 0x100 are the ASCII digits 0x30-0x39. -/
def isDigit (b : Nat) : Bool := 48 ≤ b && b ≤ 57

/-- strconv.ParseUint(string(s), 10, 32): fails on the empty string, on
any non-digit byte, and on overflow of 32 bits. -/
def parseUint (s : List Nat) : Option Nat :=
  if s.isEmpty then none
  else if s.all isDigit then
    let v := s.foldl (fun acc b => acc * 10 + (b - 48)) 0
    if v < 4294967296 then some v else none
  else none

/-- Outcome of getUintToken (magic.go lines 185-200): ok carries the
parsed value and the remainder after the delimiter; notFound models the
(0, buff, ErrTokenNotFound) return for an empty token; corrupted models
the two ErrContentCorrupted returns. -/
inductive UintTok where
  | ok (v : Nat) (rest : List Nat)
  | notFound (rest : List Nat)
  | corrupted
deriving Repr, DecidableEq

/-- magic.go lines 185-200: cut buff at del, then parse the left part as a
base-10 32-bit unsigned integer. -/
def getUintToken (buff : List Nat) (del : Nat) : UintTok :=
  match cutByte buff del with
  | none => .corrupted
  | some (tokenBytes, rest) =>
    if tokenBytes.isEmpty then .notFound rest
    else
      match parseUint tokenBytes with
      | none => .corrupted
      | some token => .ok token rest

/-- Outcome of getOptUintToken (magic.go lines 202-221).  crash models the
runtime panic of optBytes[0] when the delimiter is the last byte. -/
inductive OptTok where
  | ok (v : Nat) (rest : List Nat)
  | corrupted
  | crash
deriving Repr, DecidableEq

/-- magic.go lines 202-221: optional qualifier parse.  Cut buff at del; if
the byte right after del is a decimal digit, parse everything after del as
the value, otherwise re-append del and the tail (Go appends onto the
cut prefix, which reproduces the original buff byte for byte); with no
delimiter the default value 1 is returned with buff unchanged. -/
def getOptUintToken (buff : List Nat) (del : Nat) : OptTok :=
  match cutByte buff del with
  | none => .ok 1 buff
  | some (left, optBytes) =>
    match optBytes with
    | [] => .crash
    | b :: bs =>
      if isDigit b then
        match parseUint (b :: bs) with
        | none => .corrupted
        | some v => .ok v left
      else .ok 1 (left ++ del :: b :: bs)

/-- bufio.Reader.ReadBytes of a newline on the modelled stream: the
returned line keeps the delimiter.  none covers both a clean EOF and the
EOF-with-partial-data case, since every caller in magic.go discards the
data and stops on any error. -/
def readLine (s : List Nat) : Option (List Nat × List Nat) :=
  match cutByte s 10 with
  | none => none
  | some (l, r) => some (l ++ [10], r)

theorem cutByte_eq_some {s : List Nat} {del : Nat} {l r : List Nat}
    (h : cutByte s del = some (l, r)) : s = l ++ del :: r := by
  induction s generalizing l r with
  | nil => simp [cutByte] at h
  | cons b rest ih =>
    by_cases hb : b = del
    · simp [cutByte, hb] at h
      simp [hb, h.1.symm, h.2.symm]
    · rw [cutByte, if_neg hb] at h
      cases hc : cutByte rest del with
      | none => rw [hc] at h; simp at h
      | some p =>
        rw [hc] at h
        cases p with
        | mk pl pr =>
          simp at h
          have := ih (l := pl) (r := pr) hc
          rw [← h.1, ← h.2]
          simp [this]

theorem cutByte_eq_none {s : List Nat} {del : Nat} :
    cutByte s del = none ↔ ¬ del ∈ s := by
  induction s with
  | nil => simp [cutByte]
  | cons b rest ih =>
    by_cases hb : b = del
    · simp [cutByte, hb]
    · rw [cutByte, if_neg hb]
      constructor
      · intro h
        cases hc : cutByte rest del with
        | none =>
          have hrest := ih.mp hc
          simp [List.mem_cons]
          exact ⟨fun he => hb he.symm, hrest⟩
        | some p => rw [hc] at h; cases p; simp at h
      · intro h
        have hrest : ¬ del ∈ rest := fun hm => h (List.mem_cons_of_mem _ hm)
        rw [ih.mpr hrest]

theorem cutByte_of_not_mem {s : List Nat} {del : Nat} (h : ¬ del ∈ s) :
    cutByte s del = none := cutByte_eq_none.mpr h

theorem readLine_decomp {s l r : List Nat} (h : readLine s = some (l, r)) :
    s = l ++ r ∧ l ≠ [] := by
  unfold readLine at h
  cases hc : cutByte s 10 with
  | none => rw [hc] at h; simp at h
  | some p =>
    cases p with
    | mk pl pr =>
      rw [hc] at h
      simp at h
      have hs := cutByte_eq_some hc
      constructor
      · rw [hs, ← h.1, ← h.2]; simp
      · rw [← h.1]; simp

theorem readLine_length_lt {s l r : List Nat} (h : readLine s = some (l, r)) :
    r.length < s.length := by
  obtain ⟨hs, hl⟩ := readLine_decomp h
  rw [hs, List.length_append]
  have : 0 < l.length := List.length_pos.mpr hl
  omega

/-- magic.go lines 146-155: the refill loop for the length-prefixed
payload.  While the buffer holds at most size bytes, read one more raw
line from the stream and append it; none models the ErrContentCorrupted
return when ReadBytes fails before the buffer is long enough. -/
def refillValue (buff s : List Nat) (size : Nat) : Option (List Nat × List Nat) :=
  if buff.length ≤ size then
    match h2 : readLine s with
    | none => none
    | some (line, s1) => refillValue (buff ++ line) s1 size
  else some (buff, s)
termination_by s.length
decreasing_by exact readLine_length_lt h2

/-- magic.go lines 139-143: read the 2-byte big-endian value size only
when at least 2 bytes are buffered; otherwise the size stays 0 and the
buffer is left untouched. -/
def contentSizeStep (buff : List Nat) : Nat × List Nat :=
  if 2 ≤ buff.length then (256 * buff.headD 0 + buff.tail.headD 0, buff.drop 2)
  else (0, buff)

/-- magic.go lines 167-173: cut the remaining buffer at the first ampersand
into value and mask; with no ampersand the whole buffer is the value and
the mask is freshly allocated as size bytes of 0xff. -/
def valueMaskStep (size : Nat) (buff : List Nat) : List Nat × List Nat :=
  match cutByte buff 38 with
  | some (value, mask) => (value, mask)
  | none => (buff, List.replicate size 255)

/-- magic.go lines 157-182, the tail of readContent after the refill loop:
the buffer without its final byte goes through the optional plus (range
length) and tilde (word size) qualifier cuts and then the value / mask
cut; s1 is the stream left after the refill loop. -/
def readContentQualifiers (indent offset size : Nat) (buff s1 : List Nat) :
    PResult (Content × List Nat) :=
  match getOptUintToken buff 43 with
  | .crash => .crash
  | .corrupted => .err .contentCorrupted
  | .ok rangeLength buff1 =>
    match getOptUintToken buff1 126 with
    | .crash => .crash
    | .corrupted => .err .contentCorrupted
    | .ok wordSize buff2 =>
      .ok (⟨indent, offset, (valueMaskStep size buff2).1,
            (valueMaskStep size buff2).2, rangeLength, wordSize⟩, s1)

/-- magic.go lines 146-157: run the refill loop, then drop the final
buffered byte (buff[:len(buff)-1]) before qualifier parsing. -/
def readContentValue (indent offset size : Nat) (buff s : List Nat) :
    PResult (Content × List Nat) :=
  match refillValue buff s size with
  | none => .err .contentCorrupted
  | some (buff1, s1) => readContentQualifiers indent offset size buff1.dropLast s1

/-- magic.go lines 139-155 entry: compute the declared size, then consume
the value. -/
def readContentSize (indent offset : Nat) (buff s : List Nat) :
    PResult (Content × List Nat) :=
  readContentValue indent offset (contentSizeStep buff).1 (contentSizeStep buff).2 s

/-- magic.go lines 134-137: parse OFFSET with getUintToken(buff, byte of
the equals sign); any error there, including ErrTokenNotFound for an
empty offset, aborts readContent with that same error. -/
def readContentOffset (indent : Nat) (buff s : List Nat) :
    PResult (Content × List Nat) :=
  match getUintToken buff 61 with
  | .corrupted => .err .contentCorrupted
  | .notFound _ => .err .tokenNotFound
  | .ok offset buff1 => readContentSize indent offset buff1 s

/-- magic.go lines 128-183: parse one content rule from the line buff,
refilling from stream s when the length-prefixed payload spans lines.
ErrTokenNotFound from the indent cut (empty indent before the greater-than
sign) is tolerated with indent 0; every other token error aborts. -/
def readContent (buff s : List Nat) : PResult (Content × List Nat) :=
  match getUintToken buff 62 with
  | .corrupted => .err .contentCorrupted
  | .ok indent buff1 => readContentOffset indent buff1 s
  | .notFound buff1 => readContentOffset 0 buff1 s

/-- magic.go lines 108-126: parse a section header line.  Go slices
buff[1 : len(buff)-2], which panics when the line is shorter than 3
bytes; then cuts at the colon and parses the priority. -/
def readHeader (buff : List Nat) : PResult Section :=
  if buff.length < 3 then .crash
  else
    match cutByte ((buff.drop 1).take (buff.length - 3)) 58 with
    | none => .err .headerCorrupted
    | some (priority, filetype) =>
      match parseUint priority with
      | none => .err .headerCorrupted
      | some num => .ok ⟨filetype, num, []⟩

/-- magic.go line 83: secs[len(secs)-1].Contents = append(..., con) --
append the content rule to the last section of the list. -/
def appendLast : List Section → Content → List Section
  | [], _ => []
  | [sec], con => [{ sec with contents := sec.contents ++ [con] }]
  | sec :: rest, con => sec :: appendLast rest con

theorem refillValue_spec_aux :
    ∀ (n : Nat) (buff s : List Nat) (size : Nat) (buff1 s1 : List Nat),
      s.length ≤ n →
      refillValue buff s size = some (buff1, s1) →
      size < buff1.length ∧
        ∃ k, k ≤ s.length ∧ buff1 = buff ++ s.take k ∧ s1 = s.drop k := by
  intro n
  induction n with
  | zero =>
    intro buff s size buff1 s1 hn h
    have hs : s = [] := List.eq_nil_of_length_eq_zero (Nat.le_zero.mp hn)
    subst hs
    unfold refillValue at h
    by_cases hb : buff.length ≤ size
    · rw [if_pos hb] at h
      simp [readLine, cutByte] at h
    · rw [if_neg hb] at h
      simp only [Option.some.injEq, Prod.mk.injEq] at h
      obtain ⟨hb1, hs1⟩ := h
      subst hb1
      subst hs1
      exact ⟨by omega, 0, le_rfl, by simp, by simp⟩
  | succ n ih =>
    intro buff s size buff1 s1 hn h
    unfold refillValue at h
    by_cases hb : buff.length ≤ size
    · rw [if_pos hb] at h
      cases hr : readLine s with
      | none => rw [hr] at h; simp at h
      | some p =>
        obtain ⟨line, s2⟩ := p
        rw [hr] at h
        have hlt := readLine_length_lt hr
        obtain ⟨hsz, k1, hk1, hb1, hs1⟩ :=
          ih (buff ++ line) s2 size buff1 s1 (by omega) h
        obtain ⟨hs, hlne⟩ := readLine_decomp hr
        refine ⟨hsz, line.length + k1, ?_, ?_, ?_⟩
        · rw [hs, List.length_append]; omega
        · rw [hb1, hs, List.take_append k1, List.append_assoc]
        · rw [hs1, hs, List.drop_append k1]
    · rw [if_neg hb] at h
      simp only [Option.some.injEq, Prod.mk.injEq] at h
      obtain ⟨hb1, hs1⟩ := h
      subst hb1
      subst hs1
      exact ⟨by omega, 0, Nat.zero_le _, by simp, by simp⟩

theorem refillValue_spec {buff s : List Nat} {size : Nat} {buff1 s1 : List Nat}
    (h : refillValue buff s size = some (buff1, s1)) :
    size < buff1.length ∧
      ∃ k, k ≤ s.length ∧ buff1 = buff ++ s.take k ∧ s1 = s.drop k :=
  refillValue_spec_aux s.length buff s size buff1 s1 le_rfl h

theorem refillValue_stream_le {buff s : List Nat} {size : Nat} {buff1 s1 : List Nat}
    (h : refillValue buff s size = some (buff1, s1)) : s1.length ≤ s.length := by
  obtain ⟨-, k, -, -, hs1⟩ := refillValue_spec h
  rw [hs1]
  simp

theorem readContentQualifiers_stream {indent offset size : Nat} {buff s1 : List Nat}
    {c : Content} {s2 : List Nat}
    (h : readContentQualifiers indent offset size buff s1 = .ok (c, s2)) :
    s2 = s1 := by
  unfold readContentQualifiers at h
  split at h
  · cases h
  · cases h
  · split at h
    · cases h
    · cases h
    · simp only [PResult.ok.injEq, Prod.mk.injEq] at h
      exact h.2.symm

theorem readContentValue_stream_le {indent offset size : Nat} {buff s : List Nat}
    {c : Content} {s2 : List Nat}
    (h : readContentValue indent offset size buff s = .ok (c, s2)) :
    s2.length ≤ s.length := by
  unfold readContentValue at h
  cases hr : refillValue buff s size with
  | none => rw [hr] at h; cases h
  | some p =>
    obtain ⟨buff1, s1⟩ := p
    rw [hr] at h
    rw [readContentQualifiers_stream h]
    exact refillValue_stream_le hr

theorem readContentOffset_stream_le {indent : Nat} {buff s : List Nat}
    {c : Content} {s2 : List Nat}
    (h : readContentOffset indent buff s = .ok (c, s2)) :
    s2.length ≤ s.length := by
  unfold readContentOffset readContentSize at h
  cases h2 : getUintToken buff 61 with
  | corrupted => rw [h2] at h; cases h
  | notFound b => rw [h2] at h; cases h
  | ok offset b => rw [h2] at h; exact readContentValue_stream_le h

theorem readContent_stream_le {buff s : List Nat} {c : Content} {s2 : List Nat}
    (h : readContent buff s = .ok (c, s2)) : s2.length ≤ s.length := by
  unfold readContent at h
  cases h1 : getUintToken buff 62 with
  | corrupted => rw [h1] at h; cases h
  | ok indent b1 => rw [h1] at h; exact readContentOffset_stream_le h
  | notFound b1 => rw [h1] at h; exact readContentOffset_stream_le h

/-- magic.go lines 51-88: the ReadSections driver loop.  Read one line at
a time; a line opening with the bracket byte 0x5b starts a new section,
any other line is a content rule appended to the last section; a content
line with no section yet is ErrHeaderCorrupted; any read error (EOF
included) ends the loop and returns the sections collected so far. -/
def readSectionsLoop (s : List Nat) (secs : List Section) :
    PResult (List Section) :=
  match h1 : readLine s with
  | none => .ok secs
  | some (line, s1) =>
    if line.headD 0 = 91 then
      match readHeader line with
      | .crash => .crash
      | .err e => .err e
      | .ok sec => readSectionsLoop s1 (secs ++ [sec])
    else
      if secs.isEmpty then .err .headerCorrupted
      else
        match h2 : readContent line s1 with
        | .crash => .crash
        | .err e => .err e
        | .ok (con, s2) => readSectionsLoop s2 (appendLast secs con)
termination_by s.length
decreasing_by
  · exact readLine_length_lt h1
  · exact Nat.lt_of_le_of_lt (readContent_stream_le h2) (readLine_length_lt h1)

/-- ReadSections as called on a fresh reader positioned after the
signature. -/
def readSections (s : List Nat) : PResult (List Section) :=
  readSectionsLoop s []

/-- The 12 signature bytes of the string MIME-Magic followed by a NUL
byte and a newline (magic.go line 91). -/
def magicSign : List Nat := [77, 73, 77, 69, 45, 77, 97, 103, 105, 99, 0, 10]

/-- magic.go lines 90-106: read up to 12 bytes into a zero-initialised
12-byte buffer (bufio delivers min(12, available) bytes here; zero bytes
read with nothing available is the EOF error returned as is), then compare
the buffer byte for byte with the signature. -/
def checkMagicHeader (s : List Nat) : PResult (List Nat) :=
  if s.isEmpty then .err .ioError
  else
    let n := min 12 s.length
    if magicSign = s.take n ++ List.replicate (12 - n) 0 then .ok (s.drop n)
    else .err .notMagicFormat

/-- Open followed by ReadSections on a byte stream: validate the 12-byte
signature, then decode every section until end of stream. -/
def decode (s : List Nat) : PResult (List Section) :=
  match checkMagicHeader s with
  | .ok rest => readSections rest
  | .err e => .err e
  | .crash => .crash

theorem readSectionsLoop_eof {s : List Nat} {secs : List Section}
    (h : readLine s = none) : readSectionsLoop s secs = .ok secs := by
  conv_lhs => unfold readSectionsLoop
  split
  · rfl
  · rename_i line s1 heq
    rw [h] at heq
    cases heq

theorem readSectionsLoop_header {s line s1 : List Nat} {secs : List Section}
    {sec : Section} (h : readLine s = some (line, s1))
    (hh : line.headD 0 = 91) (hr : readHeader line = .ok sec) :
    readSectionsLoop s secs = readSectionsLoop s1 (secs ++ [sec]) := by
  conv_lhs => unfold readSectionsLoop
  split
  · rename_i heq
    rw [h] at heq
    cases heq
  · rename_i line' s1' heq
    rw [h] at heq
    injection heq with heq
    injection heq with hl hs
    subst hl
    subst hs
    rw [if_pos hh, hr]

theorem readSectionsLoop_header_err {s line s1 : List Nat}
    {secs : List Section} {e : MErr}
    (h : readLine s = some (line, s1)) (hh : line.headD 0 = 91)
    (hr : readHeader line = .err e) :
    readSectionsLoop s secs = .err e := by
  conv_lhs => unfold readSectionsLoop
  split
  · rename_i heq
    rw [h] at heq
    cases heq
  · rename_i line' s1' heq
    rw [h] at heq
    injection heq with heq
    injection heq with hl hs
    subst hl
    subst hs
    rw [if_pos hh, hr]

theorem readSectionsLoop_header_crash {s line s1 : List Nat}
    {secs : List Section}
    (h : readLine s = some (line, s1)) (hh : line.headD 0 = 91)
    (hr : readHeader line = .crash) :
    readSectionsLoop s secs = .crash := by
  conv_lhs => unfold readSectionsLoop
  split
  · rename_i heq
    rw [h] at heq
    cases heq
  · rename_i line' s1' heq
    rw [h] at heq
    injection heq with heq
    injection heq with hl hs
    subst hl
    subst hs
    rw [if_pos hh, hr]

theorem readSectionsLoop_noHeader {s line s1 : List Nat}
    (h : readLine s = some (line, s1)) (hh : ¬ line.headD 0 = 91) :
    readSectionsLoop s [] = .err .headerCorrupted := by
  conv_lhs => unfold readSectionsLoop
  split
  · rename_i heq
    rw [h] at heq
    cases heq
  · rename_i line' s1' heq
    rw [h] at heq
    injection heq with heq
    injection heq with hl hs
    subst hl
    subst hs
    rw [if_neg hh]
    rfl

theorem readSectionsLoop_content {s line s1 : List Nat} {secs : List Section}
    {con : Content} {s2 : List Nat} (h : readLine s = some (line, s1))
    (hh : ¬ line.headD 0 = 91) (hsec : secs ≠ [])
    (hc : readContent line s1 = .ok (con, s2)) :
    readSectionsLoop s secs = readSectionsLoop s2 (appendLast secs con) := by
  conv_lhs => unfold readSectionsLoop
  split
  · rename_i heq
    rw [h] at heq
    cases heq
  · rename_i line' s1' heq
    rw [h] at heq
    injection heq with heq
    injection heq with hl hs
    subst hl
    subst hs
    rw [if_neg hh, if_neg (by simpa using hsec), hc]

theorem readSectionsLoop_content_err {s line s1 : List Nat}
    {secs : List Section} {e : MErr}
    (h : readLine s = some (line, s1)) (hh : ¬ line.headD 0 = 91)
    (hsec : secs ≠ []) (hc : readContent line s1 = .err e) :
    readSectionsLoop s secs = .err e := by
  conv_lhs => unfold readSectionsLoop
  split
  · rename_i heq
    rw [h] at heq
    cases heq
  · rename_i line' s1' heq
    rw [h] at heq
    injection heq with heq
    injection heq with hl hs
    subst hl
    subst hs
    rw [if_neg hh, if_neg (by simpa using hsec), hc]

theorem readSectionsLoop_content_crash {s line s1 : List Nat}
    {secs : List Section}
    (h : readLine s = some (line, s1)) (hh : ¬ line.headD 0 = 91)
    (hsec : secs ≠ []) (hc : readContent line s1 = .crash) :
    readSectionsLoop s secs = .crash := by
  conv_lhs => unfold readSectionsLoop
  split
  · rename_i heq
    rw [h] at heq
    cases heq
  · rename_i line' s1' heq
    rw [h] at heq
    injection heq with heq
    injection heq with hl hs
    subst hl
    subst hs
    rw [if_neg hh, if_neg (by simpa using hsec), hc]

/-- Every header line of the stream (under the repeated ReadBytes line
decomposition) is immediately followed by another line, and that next
line is not a header line.  This is the shape of a well-formed section
body stream: no header dangles at end of stream and no two header lines
are adjacent. -/
def headerFollowedByContent (s : List Nat) : Bool :=
  match h3 : readLine s with
  | none => true
  | some (line, rest) =>
    if line.headD 0 = 91 then
      (match readLine rest with
       | none => false
       | some (l2, _) => l2.headD 0 != 91) && headerFollowedByContent rest
    else headerFollowedByContent rest
termination_by s.length
decreasing_by
  · exact readLine_length_lt h3
  · exact readLine_length_lt h3

theorem headerFollowedByContent_step {s line rest : List Nat}
    (h : readLine s = some (line, rest))
    (hf : headerFollowedByContent s = true) :
    headerFollowedByContent rest = true ∧
      (line.headD 0 = 91 →
        ∃ l2 r2, readLine rest = some (l2, r2) ∧ ¬ l2.headD 0 = 91) := by
  unfold headerFollowedByContent at hf
  split at hf
  · rename_i heq
    rw [h] at heq
    cases heq
  · rename_i line' rest' heq
    rw [h] at heq
    injection heq with heq
    injection heq with h1 h2
    subst h1
    subst h2
    by_cases hh : line.headD 0 = 91
    · rw [if_pos hh] at hf
      cases hr2 : readLine rest with
      | none =>
        simp only [hr2, Bool.false_and] at hf
        cases hf
      | some p =>
        obtain ⟨l2, r2⟩ := p
        simp only [hr2, Bool.and_eq_true, bne_iff_ne, ne_eq] at hf
        exact ⟨hf.2, fun _ => ⟨l2, r2, rfl, hf.1⟩⟩
    · rw [if_neg hh] at hf
      exact ⟨hf, fun hc => absurd hc hh⟩

theorem refillValue_headerFollowed_aux :
    ∀ (n : Nat) (buff s : List Nat) (size : Nat) (buff1 s1 : List Nat),
      s.length ≤ n →
      refillValue buff s size = some (buff1, s1) →
      headerFollowedByContent s = true →
      headerFollowedByContent s1 = true := by
  intro n
  induction n with
  | zero =>
    intro buff s size buff1 s1 hn h hnh
    have hs : s = [] := List.eq_nil_of_length_eq_zero (Nat.le_zero.mp hn)
    subst hs
    unfold refillValue at h
    by_cases hb : buff.length ≤ size
    · rw [if_pos hb] at h
      simp [readLine, cutByte] at h
    · rw [if_neg hb] at h
      simp only [Option.some.injEq, Prod.mk.injEq] at h
      rw [← h.2]
      exact hnh
  | succ n ih =>
    intro buff s size buff1 s1 hn h hnh
    unfold refillValue at h
    by_cases hb : buff.length ≤ size
    · rw [if_pos hb] at h
      cases hr : readLine s with
      | none => rw [hr] at h; simp at h
      | some p =>
        obtain ⟨line, s2⟩ := p
        rw [hr] at h
        have hlt := readLine_length_lt hr
        exact ih (buff ++ line) s2 size buff1 s1 (by omega) h
          (headerFollowedByContent_step hr hnh).1
    · rw [if_neg hb] at h
      simp only [Option.some.injEq, Prod.mk.injEq] at h
      rw [← h.2]
      exact hnh

theorem refillValue_headerFollowed {buff s : List Nat} {size : Nat}
    {buff1 s1 : List Nat} (h : refillValue buff s size = some (buff1, s1))
    (hn : headerFollowedByContent s = true) :
    headerFollowedByContent s1 = true :=
  refillValue_headerFollowed_aux s.length buff s size buff1 s1 le_rfl h hn

theorem readContentValue_headerFollowed {indent offset size : Nat}
    {buff s : List Nat} {c : Content} {s2 : List Nat}
    (h : readContentValue indent offset size buff s = .ok (c, s2))
    (hn : headerFollowedByContent s = true) :
    headerFollowedByContent s2 = true := by
  unfold readContentValue at h
  cases hr : refillValue buff s size with
  | none => rw [hr] at h; cases h
  | some p =>
    obtain ⟨buff1, s1⟩ := p
    rw [hr] at h
    rw [readContentQualifiers_stream h]
    exact refillValue_headerFollowed hr hn

theorem readContentOffset_headerFollowed {indent : Nat} {buff s : List Nat}
    {c : Content} {s2 : List Nat}
    (h : readContentOffset indent buff s = .ok (c, s2))
    (hn : headerFollowedByContent s = true) :
    headerFollowedByContent s2 = true := by
  unfold readContentOffset readContentSize at h
  cases h2 : getUintToken buff 61 with
  | corrupted => rw [h2] at h; cases h
  | notFound b => rw [h2] at h; cases h
  | ok offset b => rw [h2] at h; exact readContentValue_headerFollowed h hn

theorem readContent_headerFollowed {buff s : List Nat} {c : Content}
    {s2 : List Nat} (h : readContent buff s = .ok (c, s2))
    (hn : headerFollowedByContent s = true) :
    headerFollowedByContent s2 = true := by
  unfold readContent at h
  cases h1 : getUintToken buff 62 with
  | corrupted => rw [h1] at h; cases h
  | ok indent b1 => rw [h1] at h; exact readContentOffset_headerFollowed h hn
  | notFound b1 => rw [h1] at h; exact readContentOffset_headerFollowed h hn

theorem appendLast_nonEmpty {secs : List Section} {con : Content}
    (h : ∀ sec ∈ secs.dropLast, sec.contents ≠ []) :
    ∀ sec ∈ appendLast secs con, sec.contents ≠ [] := by
  induction secs with
  | nil => simp [appendLast]
  | cons a rest ih =>
    cases rest with
    | nil =>
      intro sec hm
      simp only [appendLast, List.mem_singleton] at hm
      subst hm
      simp
    | cons b r =>
      have hd : (a :: b :: r).dropLast = a :: (b :: r).dropLast := rfl
      rw [hd] at h
      intro sec hm
      rw [show appendLast (a :: b :: r) con = a :: appendLast (b :: r) con
        from rfl] at hm
      rcases List.mem_cons.mp hm with hm | hm
      · subst hm
        exact h sec (List.mem_cons_self _ _)
      · exact ih (fun x hx => h x (List.mem_cons_of_mem _ hx)) sec hm

theorem readSectionsLoop_nonEmpty_aux :
    ∀ (n : Nat) (s : List Nat) (secs res : List Section),
      s.length ≤ n → headerFollowedByContent s = true →
      ((∀ sec ∈ secs, sec.contents ≠ []) ∨
        ((∀ sec ∈ secs.dropLast, sec.contents ≠ []) ∧ secs ≠ [] ∧
          ∃ l r, readLine s = some (l, r) ∧ ¬ l.headD 0 = 91)) →
      readSectionsLoop s secs = .ok res →
      ∀ sec ∈ res, sec.contents ≠ [] := by
  intro n
  induction n with
  | zero =>
    intro s secs res hn hf hstate h
    have hs : s = [] := List.eq_nil_of_length_eq_zero (Nat.le_zero.mp hn)
    subst hs
    rw [readSectionsLoop_eof (by rfl)] at h
    injection h with h
    subst h
    rcases hstate with hA | ⟨-, -, l, r, hlr, -⟩
    · exact hA
    · rw [show readLine [] = none from rfl] at hlr
      cases hlr
  | succ n ih =>
    intro s secs res hn hf hstate h
    cases hr : readLine s with
    | none =>
      rw [readSectionsLoop_eof hr] at h
      injection h with h
      subst h
      rcases hstate with hA | ⟨-, -, l, r, hlr, -⟩
      · exact hA
      · rw [hr] at hlr
        cases hlr
    | some p =>
      obtain ⟨line, s1⟩ := p
      obtain ⟨hf1, hnext⟩ := headerFollowedByContent_step hr hf
      have hlt := readLine_length_lt hr
      by_cases hh : line.headD 0 = 91
      · have hA : ∀ sec ∈ secs, sec.contents ≠ [] := by
          rcases hstate with hA | ⟨-, -, l, r, hlr, hnl⟩
          · exact hA
          · rw [hr] at hlr
            injection hlr with hlr
            injection hlr with he1 he2
            exact absurd (he1 ▸ hh) hnl
        cases hrh : readHeader line with
        | crash => rw [readSectionsLoop_header_crash hr hh hrh] at h; cases h
        | err e => rw [readSectionsLoop_header_err hr hh hrh] at h; cases h
        | ok sec0 =>
          rw [readSectionsLoop_header hr hh hrh] at h
          obtain ⟨l2, r2, hl2, hnl2⟩ := hnext hh
          have hdl : (secs ++ [sec0]).dropLast = secs := by simp
          refine ih s1 (secs ++ [sec0]) res (by omega) hf1
            (Or.inr ⟨?_, by simp, l2, r2, hl2, hnl2⟩) h
          rw [hdl]
          exact hA
      · by_cases hsec : secs = []
        · rw [hsec] at h
          rw [readSectionsLoop_noHeader hr hh] at h
          cases h
        · cases hc : readContent line s1 with
          | crash =>
            rw [readSectionsLoop_content_crash hr hh hsec hc] at h
            cases h
          | err e =>
            rw [readSectionsLoop_content_err hr hh hsec hc] at h
            cases h
          | ok q =>
            obtain ⟨con, s2⟩ := q
            rw [readSectionsLoop_content hr hh hsec hc] at h
            have hle := readContent_stream_le hc
            have hdrop : ∀ sec ∈ secs.dropLast, sec.contents ≠ [] := by
              rcases hstate with hA | ⟨hB, -, -⟩
              · exact fun x hx => hA x (List.dropLast_subset _ hx)
              · exact hB
            exact ih s2 (appendLast secs con) res (by omega)
              (readContent_headerFollowed hc hf1)
              (Or.inl (appendLast_nonEmpty hdrop)) h

theorem cutByte_right_mem {s : List Nat} {del : Nat} {l r : List Nat}
    (h : cutByte s del = some (l, r)) {x : Nat} (hx : x ∈ r) : x ∈ s := by
  rw [cutByte_eq_some h]
  simp [hx]

theorem cutByte_left_mem {s : List Nat} {del : Nat} {l r : List Nat}
    (h : cutByte s del = some (l, r)) {x : Nat} (hx : x ∈ l) : x ∈ s := by
  rw [cutByte_eq_some h]
  simp [hx]

theorem getUintToken_ok_subset {buff : List Nat} {del v : Nat} {rest : List Nat}
    (h : getUintToken buff del = .ok v rest) : ∀ x ∈ rest, x ∈ buff := by
  unfold getUintToken at h
  cases hc : cutByte buff del with
  | none => simp only [hc] at h; cases h
  | some p =>
    obtain ⟨tok, r⟩ := p
    simp only [hc] at h
    by_cases he : tok.isEmpty
    · rw [if_pos he] at h; cases h
    · rw [if_neg he] at h
      cases hp : parseUint tok with
      | none => simp only [hp] at h; cases h
      | some t =>
        simp only [hp] at h
        injection h with h1 h2
        subst h2
        exact fun x hx => cutByte_right_mem hc hx

theorem getUintToken_notFound_subset {buff : List Nat} {del : Nat}
    {rest : List Nat} (h : getUintToken buff del = .notFound rest) :
    ∀ x ∈ rest, x ∈ buff := by
  unfold getUintToken at h
  cases hc : cutByte buff del with
  | none => simp only [hc] at h; cases h
  | some p =>
    obtain ⟨tok, r⟩ := p
    simp only [hc] at h
    by_cases he : tok.isEmpty
    · rw [if_pos he] at h
      injection h with h1
      subst h1
      exact fun x hx => cutByte_right_mem hc hx
    · rw [if_neg he] at h
      cases hp : parseUint tok with
      | none => simp only [hp] at h; cases h
      | some t => simp only [hp] at h; cases h

theorem getUintToken_not_mem {buff : List Nat} {del : Nat}
    (h : ¬ del ∈ buff) : getUintToken buff del = .corrupted := by
  unfold getUintToken
  rw [cutByte_of_not_mem h]

theorem getOptUintToken_not_mem {buff : List Nat} {del : Nat}
    (h : ¬ del ∈ buff) : getOptUintToken buff del = .ok 1 buff := by
  unfold getOptUintToken
  rw [cutByte_of_not_mem h]

theorem getOptUintToken_ok_subset {buff : List Nat} {del v : Nat}
    {rest : List Nat} (h : getOptUintToken buff del = .ok v rest) :
    ∀ x ∈ rest, x ∈ buff := by
  unfold getOptUintToken at h
  cases hc : cutByte buff del with
  | none =>
    simp only [hc] at h
    injection h with h1 h2
    subst h2
    exact fun x hx => hx
  | some p =>
    obtain ⟨left, optBytes⟩ := p
    cases optBytes with
    | nil => simp only [hc] at h; cases h
    | cons b bs =>
      simp only [hc] at h
      by_cases hd : isDigit b
      · rw [if_pos hd] at h
        cases hp : parseUint (b :: bs) with
        | none => simp only [hp] at h; cases h
        | some t =>
          simp only [hp] at h
          injection h with h1 h2
          subst h2
          exact fun x hx => cutByte_left_mem hc hx
      · rw [if_neg hd] at h
        injection h with h1 h2
        subst h2
        rw [← cutByte_eq_some hc]
        exact fun x hx => hx

/-- With no ampersand, plus, or tilde byte in the buffer, the qualifier
stage returns the defaults 1, the whole buffer as value, and the
all-0xff mask of the declared size. -/
theorem readContentQualifiers_no_specials {indent offset size : Nat}
    {buff s1 : List Nat} (h43 : ¬ 43 ∈ buff) (h126 : ¬ 126 ∈ buff)
    (h38 : ¬ 38 ∈ buff) :
    readContentQualifiers indent offset size buff s1 =
      .ok (⟨indent, offset, buff, List.replicate size 255, 1, 1⟩, s1) := by
  unfold readContentQualifiers valueMaskStep
  simp only [getOptUintToken_not_mem h43, getOptUintToken_not_mem h126,
    cutByte_of_not_mem h38]

/-- A successful readContent whose indent cut left the remainder b1 and
whose offset cut left the remainder b2 factors through the qualifier
stage applied to the declared 2-byte size read by contentSizeStep from
b2, on a buffer whose bytes all come from the line or the stream, with
the leftover stream unchanged from that point on. -/
theorem readContent_stage_decomp {buff s : List Nat} {c : Content}
    {s2 : List Nat} {ind offset : Nat} {b1 b2 : List Nat}
    (h1 : getUintToken buff 62 = .ok ind b1 ∨
      getUintToken buff 62 = .notFound b1)
    (h2 : getUintToken b1 61 = .ok offset b2)
    (h : readContent buff s = .ok (c, s2)) :
    ∃ (i : Nat) (buffQ : List Nat),
      (∀ x ∈ buffQ, x ∈ buff ∨ x ∈ s) ∧
      readContentQualifiers i offset (contentSizeStep b2).1 buffQ s2 =
        .ok (c, s2) := by
  have hb1 : ∀ x ∈ b1, x ∈ buff := by
    rcases h1 with h1 | h1
    · exact getUintToken_ok_subset h1
    · exact getUintToken_notFound_subset h1
  have hoff : ∃ i, readContentOffset i b1 s = .ok (c, s2) := by
    unfold readContent at h
    rcases h1 with h1 | h1
    · simp only [h1] at h
      exact ⟨ind, h⟩
    · simp only [h1] at h
      exact ⟨0, h⟩
  obtain ⟨i, hoff⟩ := hoff
  unfold readContentOffset readContentSize at hoff
  simp only [h2] at hoff
  have hb2 : ∀ x ∈ b2, x ∈ buff :=
    fun x hx => hb1 x (getUintToken_ok_subset h2 x hx)
  unfold readContentValue at hoff
  cases hr : refillValue ((contentSizeStep b2).2) s ((contentSizeStep b2).1) with
  | none => rw [hr] at hoff; cases hoff
  | some p =>
    obtain ⟨buffR, s1⟩ := p
    rw [hr] at hoff
    have hs2 : s2 = s1 := readContentQualifiers_stream hoff
    subst hs2
    refine ⟨i, buffR.dropLast, ?_, hoff⟩
    intro x hx
    have hxR : x ∈ buffR := List.dropLast_subset _ hx
    obtain ⟨-, k, -, hbR, -⟩ := refillValue_spec hr
    rw [hbR] at hxR
    rcases List.mem_append.mp hxR with hx3 | hxs
    · left
      have : x ∈ b2 := by
        unfold contentSizeStep at hx3
        by_cases hlen : 2 ≤ b2.length
        · rw [if_pos hlen] at hx3
          exact List.drop_subset _ _ hx3
        · rw [if_neg hlen] at hx3
          exact hx3
      exact hb2 x this
    · right
      exact List.take_subset _ _ hxs

/-- A stream opening with the 12 signature bytes passes the header check
and the cursor lands right after the signature. -/
theorem checkMagicHeader_signed (rest : List Nat) :
    checkMagicHeader (magicSign ++ rest) = .ok rest := by
  unfold checkMagicHeader
  have hne : ((magicSign ++ rest).isEmpty) = false := by
    simp [magicSign]
  rw [hne]
  have hlen : (magicSign ++ rest).length = 12 + rest.length := by
    simp [magicSign]
    omega
  have hmin : min 12 (magicSign ++ rest).length = 12 := by
    rw [hlen]; omega
  simp only [Bool.false_eq_true, if_false, hmin]
  have htake : (magicSign ++ rest).take 12 = magicSign := by
    rw [show (12 : Nat) = magicSign.length from rfl]
    exact List.take_left magicSign rest
  have hdrop : (magicSign ++ rest).drop 12 = rest := by
    rw [show (12 : Nat) = magicSign.length from rfl]
    exact List.drop_left magicSign rest
  rw [htake, hdrop]
  simp

theorem decode_signed (rest : List Nat) :
    decode (magicSign ++ rest) = readSections rest := by
  unfold decode
  rw [checkMagicHeader_signed]

/-- C1 (corrected).  The refill loop pulls raw lines while the buffer
holds at most LENGTH bytes (not: fewer than LENGTH), so the refilled
buffer is the starting buffer extended by exactly the stream bytes
consumed, in order, newlines included, and afterwards holds more than
LENGTH bytes; the qualifier and mask cuts are then applied to the whole
refilled buffer minus its final byte, value bytes included, so delimiter
bytes inside the LENGTH value bytes can be reinterpreted as structure. -/
theorem c1_refill_behavior :
    (∀ (buff s : List Nat) (size : Nat) (buff1 s1 : List Nat),
      refillValue buff s size = some (buff1, s1) →
      size < buff1.length ∧
        ∃ k, k ≤ s.length ∧ buff1 = buff ++ s.take k ∧ s1 = s.drop k) ∧
    (∀ (indent offset size : Nat) (buff s buff1 s1 : List Nat),
      refillValue buff s size = some (buff1, s1) →
      readContentValue indent offset size buff s =
        readContentQualifiers indent offset size buff1.dropLast s1) := by
  constructor
  · intro buff s size buff1 s1 h
    exact refillValue_spec h
  · intro indent offset size buff s buff1 s1 h
    unfold readContentValue
    simp only [h]

/-- C1 witness: a 3-byte value whose middle byte is a newline is pulled
from the stream by the refill loop; the buffer grows by exactly the two
stream bytes consumed and ends up longer than the declared size 3. -/
theorem c1_refill_behavior_witness :
    (3 < ([97, 10, 98, 10] : List Nat).length ∧
      ∃ k, k ≤ ([98, 10] : List Nat).length ∧
        ([97, 10, 98, 10] : List Nat) = [97, 10] ++ ([98, 10] : List Nat).take k ∧
        ([] : List Nat) = ([98, 10] : List Nat).drop k) ∧
    readContentValue 0 0 3 [97, 10] [98, 10] =
      readContentQualifiers 0 0 3 ([97, 10, 98, 10] : List Nat).dropLast [] :=
  ⟨c1_refill_behavior.1 [97, 10] [98, 10] 3 [97, 10, 98, 10] []
      (by simp [refillValue, readLine, cutByte]),
   c1_refill_behavior.2 0 0 3 [97, 10] [98, 10] [97, 10, 98, 10] []
      (by simp [refillValue, readLine, cutByte])⟩

/-- C1 counterexample: the content line with bytes
0x3e 0x30 0x3d 0x00 0x03 0x61 0x2b 0x35 0x0a declares LENGTH 3 with
value bytes 0x61 0x2b 0x35 (a, plus, 5), yet the parser returns value
[0x61] and range length 5: the plus and digit inside the declared value
bytes were reinterpreted as a RANGE qualifier, contradicting the claim
that bytes inside the LENGTH value bytes are never treated as
structure. -/
theorem c1_counterexample :
    readContent [62, 48, 61, 0, 3, 97, 43, 53, 10] [] =
      .ok (⟨0, 0, [97], [255, 255, 255], 5, 1⟩, []) := by
  simp [readContent, readContentOffset, readContentSize, readContentValue,
    readContentQualifiers, getUintToken, getOptUintToken, contentSizeStep,
    valueMaskStep, refillValue, readLine, cutByte, parseUint, isDigit]

/-- C2 (corrected).  When fewer than 2 bytes remain right after the
equals sign the parser does not pull further lines to complete the
length field: the declared size stays 0, the single remaining byte is
treated as the line terminator, the stream is left untouched, and the
resulting Content has an empty value and mask. -/
theorem c2_short_length_field :
    ∀ (indent : Nat) (buff s : List Nat) (offset b : Nat),
      getUintToken buff 61 = .ok offset [b] →
      readContentOffset indent buff s = .ok (⟨indent, offset, [], [], 1, 1⟩, s) := by
  intro indent buff s offset b h
  unfold readContentOffset
  simp only [h]
  unfold readContentSize
  have hcs : contentSizeStep [b] = (0, [b]) := by simp [contentSizeStep]
  rw [hcs]
  unfold readContentValue
  have hr : refillValue [b] s 0 = some ([b], s) := by
    unfold refillValue
    simp
  rw [hr]
  rfl

/-- C2 witness: on the line 0x37 0x3e 0x30 0x3d 0x0a (7, greater-than, 0,
equals, newline) only one byte follows the equals sign; the parse
succeeds with size 0, empty value, and the stream untouched. -/
theorem c2_short_length_field_witness :
    readContentOffset 7 [48, 61, 10] [] = .ok (⟨7, 0, [], [], 1, 1⟩, []) :=
  c2_short_length_field 7 [48, 61, 10] [] 0 10 (by decide)

/-- C2 counterexample: the content line 0x3e 0x30 0x3d 0x0a leaves one
byte after the equals sign; the claim says the parser must pull the next
stream line (0x58 0x59 0x0a) and consume two bytes as LENGTH, but the
code returns with the stream untouched and no length consumed. -/
theorem c2_counterexample :
    readContent [62, 48, 61, 10] [88, 89, 10] =
      .ok (⟨0, 0, [], [], 1, 1⟩, [88, 89, 10]) := by
  simp [readContent, readContentOffset, readContentSize, readContentValue,
    readContentQualifiers, getUintToken, getOptUintToken, contentSizeStep,
    valueMaskStep, refillValue, readLine, cutByte, parseUint, isDigit]

/-- C3 (confirmed).  A plus or tilde cut in the buffer is treated as a
qualifier only when the byte right after the delimiter is a decimal
digit; when that byte is not a digit the delimiter and its tail are
re-appended, reproducing the original buffer, and the returned value is
the default 1; with no delimiter at all the default 1 applies and the
buffer is unchanged. -/
theorem c3_digit_lookahead :
    ∀ (buff : List Nat) (del : Nat),
      (cutByte buff del = none → getOptUintToken buff del = .ok 1 buff) ∧
      (∀ (l : List Nat) (b : Nat) (r : List Nat),
        cutByte buff del = some (l, b :: r) →
        (isDigit b = false → getOptUintToken buff del = .ok 1 buff) ∧
        (isDigit b = true →
          getOptUintToken buff del =
            match parseUint (b :: r) with
            | none => .corrupted
            | some v => .ok v l)) := by
  intro buff del
  constructor
  · intro h
    unfold getOptUintToken
    rw [h]
  · intro l b r h
    constructor
    · intro hd
      unfold getOptUintToken
      simp only [h, hd, Bool.false_eq_true, if_false]
      rw [← cutByte_eq_some h]
    · intro hd
      unfold getOptUintToken
      simp only [h, hd, if_true]

/-- C3 witness: in the buffer 0x61 0x2b 0x62 the plus is followed by a
non-digit and is kept as payload with default 1; in 0x61 0x2b 0x35 the
plus is followed by the digit 5 and parses as the qualifier value 5; a
buffer with no plus keeps the default 1. -/
theorem c3_digit_lookahead_witness :
    getOptUintToken [97, 43, 98] 43 = .ok 1 [97, 43, 98] ∧
    getOptUintToken [97, 43, 53] 43 = .ok 5 [97] ∧
    getOptUintToken [97, 98] 43 = .ok 1 [97, 98] :=
  ⟨((c3_digit_lookahead [97, 43, 98] 43).2 [97] 98 [] (by decide)).1 (by decide),
   ((c3_digit_lookahead [97, 43, 53] 43).2 [97] 53 [] (by decide)).2 (by decide),
   (c3_digit_lookahead [97, 98] 43).1 (by decide)⟩

/-- C4 (confirmed).  Decoding the exact bytes of
MIME-Magic NUL newline, the header line for priority 50 and filetype
text/plain, and the content line greater-than 0 equals 0x00 0x04 t e s t
newline yields one section with one content rule: indent 0, offset 0,
value the four bytes of test, mask four 0xff bytes, range length 1, word
size 1. -/
theorem c4_concrete_decode :
    decode ([77, 73, 77, 69, 45, 77, 97, 103, 105, 99, 0, 10] ++
      [91, 53, 48, 58, 116, 101, 120, 116, 47, 112, 108, 97, 105, 110, 93, 10] ++
      [62, 48, 61, 0, 4, 116, 101, 115, 116, 10]) =
    .ok [⟨[116, 101, 120, 116, 47, 112, 108, 97, 105, 110], 50,
      [⟨0, 0, [116, 101, 115, 116], [255, 255, 255, 255], 1, 1⟩]⟩] := by
  have h1 : decode ([77, 73, 77, 69, 45, 77, 97, 103, 105, 99, 0, 10] ++
      [91, 53, 48, 58, 116, 101, 120, 116, 47, 112, 108, 97, 105, 110, 93, 10] ++
      [62, 48, 61, 0, 4, 116, 101, 115, 116, 10]) =
      readSectionsLoop
        ([91, 53, 48, 58, 116, 101, 120, 116, 47, 112, 108, 97, 105, 110, 93, 10] ++
         [62, 48, 61, 0, 4, 116, 101, 115, 116, 10]) [] := rfl
  rw [h1]
  rw [readSectionsLoop_header
    (by decide : readLine
      ([91, 53, 48, 58, 116, 101, 120, 116, 47, 112, 108, 97, 105, 110, 93, 10] ++
       [62, 48, 61, 0, 4, 116, 101, 115, 116, 10]) =
      some ([91, 53, 48, 58, 116, 101, 120, 116, 47, 112, 108, 97, 105, 110, 93, 10],
        [62, 48, 61, 0, 4, 116, 101, 115, 116, 10]))
    (by decide)
    (by decide : readHeader
      [91, 53, 48, 58, 116, 101, 120, 116, 47, 112, 108, 97, 105, 110, 93, 10] =
      .ok ⟨[116, 101, 120, 116, 47, 112, 108, 97, 105, 110], 50, []⟩)]
  rw [readSectionsLoop_content
    (by decide : readLine [62, 48, 61, 0, 4, 116, 101, 115, 116, 10] =
      some ([62, 48, 61, 0, 4, 116, 101, 115, 116, 10], []))
    (by decide) (by decide)
    (by simp [readContent, readContentOffset, readContentSize, readContentValue,
      readContentQualifiers, getUintToken, getOptUintToken, contentSizeStep,
      valueMaskStep, refillValue, readLine, cutByte, parseUint, isDigit] :
      readContent [62, 48, 61, 0, 4, 116, 101, 115, 116, 10] [] =
      .ok (⟨0, 0, [116, 101, 115, 116], [255, 255, 255, 255], 1, 1⟩, []))]
  rw [readSectionsLoop_eof (by decide : readLine [] = none)]
  rfl

/-- C5 (corrected).  A content line carrying none of the plus, tilde, or
ampersand bytes (in the line or in any refilled stream bytes) yields the
defaults range length 1 and word size 1 and a mask that is 0xff repeated
exactly the declared 2-byte LENGTH: the big-endian field that
contentSizeStep reads from the remainder b2 left by the offset cut.
That length is not always the value length. -/
theorem c5_defaults :
    ∀ (buff s : List Nat) (c : Content) (s2 : List Nat) (ind offset : Nat)
      (b1 b2 : List Nat),
      ¬ 43 ∈ buff → ¬ 126 ∈ buff → ¬ 38 ∈ buff →
      ¬ 43 ∈ s → ¬ 126 ∈ s → ¬ 38 ∈ s →
      (getUintToken buff 62 = .ok ind b1 ∨
        getUintToken buff 62 = .notFound b1) →
      getUintToken b1 61 = .ok offset b2 →
      readContent buff s = .ok (c, s2) →
      c.rangeLength = 1 ∧ c.wordSize = 1 ∧
        c.mask = List.replicate (contentSizeStep b2).1 255 ∧
        c.mask.length = (contentSizeStep b2).1 := by
  intro buff s c s2 ind offset b1 b2 h43 h126 h38 hs43 hs126 hs38 h1 h2 h
  obtain ⟨i, buffQ, hmem, hq⟩ := readContent_stage_decomp h1 h2 h
  have n43 : ¬ 43 ∈ buffQ := fun hx => (hmem 43 hx).elim h43 hs43
  have n126 : ¬ 126 ∈ buffQ := fun hx => (hmem 126 hx).elim h126 hs126
  have n38 : ¬ 38 ∈ buffQ := fun hx => (hmem 38 hx).elim h38 hs38
  rw [readContentQualifiers_no_specials n43 n126 n38] at hq
  injection hq with hq
  injection hq with hcc hss
  rw [← hcc]
  exact ⟨rfl, rfl, rfl, by simp⟩

/-- C5 witness: on the content line with declared LENGTH 2 and payload
h i, the offset cut leaves b2 with the length field 0x00 0x02 in front,
and the mask is 0xff repeated that declared length 2. -/
theorem c5_defaults_witness :
    (⟨0, 0, [104, 105], [255, 255], 1, 1⟩ : Content).rangeLength = 1 ∧
    (⟨0, 0, [104, 105], [255, 255], 1, 1⟩ : Content).wordSize = 1 ∧
    (⟨0, 0, [104, 105], [255, 255], 1, 1⟩ : Content).mask =
      List.replicate (contentSizeStep [0, 2, 104, 105, 10]).1 255 ∧
    (⟨0, 0, [104, 105], [255, 255], 1, 1⟩ : Content).mask.length =
      (contentSizeStep [0, 2, 104, 105, 10]).1 :=
  c5_defaults [62, 48, 61, 0, 2, 104, 105, 10] []
    ⟨0, 0, [104, 105], [255, 255], 1, 1⟩ [] 0 0
    [48, 61, 0, 2, 104, 105, 10] [0, 2, 104, 105, 10]
    (by decide) (by decide) (by decide) (by decide) (by decide) (by decide)
    (Or.inr (by decide)) (by decide)
    (by simp [readContent, readContentOffset, readContentSize, readContentValue,
      readContentQualifiers, getUintToken, getOptUintToken, contentSizeStep,
      valueMaskStep, refillValue, readLine, cutByte, parseUint, isDigit])

/-- C5 counterexample: the content line 0x3e 0x30 0x3d 0x00 0x01 0x41
0x42 0x0a contains no plus, tilde, or ampersand, yet its value is the
two bytes A B while the defaulted mask has length 1 (the declared
LENGTH), so the mask length does not equal the value length as the claim
states. -/
theorem c5_counterexample :
    readContent [62, 48, 61, 0, 1, 65, 66, 10] [] =
      .ok (⟨0, 0, [65, 66], [255], 1, 1⟩, []) ∧
    ¬ ([255] : List Nat).length = ([65, 66] : List Nat).length := by
  constructor
  · simp [readContent, readContentOffset, readContentSize, readContentValue,
      readContentQualifiers, getUintToken, getOptUintToken, contentSizeStep,
      valueMaskStep, refillValue, readLine, cutByte, parseUint, isDigit]
  · decide

/-- C6 (corrected).  Sections can come out of a successful decode with an
empty contents list; non-emptiness holds under exactly the hypothesis the
counterexample forces: whenever every header line of the post-signature
stream is immediately followed by a further line that is a content line,
every Section of a successful decode has a non-empty Contents list -- for
any number of sections. -/
theorem c6_nonempty_conditional :
    ∀ (s : List Nat) (res : List Section),
      headerFollowedByContent s = true →
      readSections s = .ok res →
      ∀ sec ∈ res, sec.contents ≠ [] := by
  intro s res hf h
  exact readSectionsLoop_nonEmpty_aux s.length s [] res le_rfl hf
    (Or.inl (by simp)) h

/-- C6 witness: a two-section stream (header priority 1 filetype a with
one content line, then header priority 3 filetype c with one content
line) satisfies the header-followed-by-content hypothesis, decodes
successfully, and its second section has non-empty contents. -/
theorem c6_nonempty_conditional_witness :
    (⟨[99], 3, [⟨0, 0, [100], [255], 1, 1⟩]⟩ : Section).contents ≠ [] :=
  c6_nonempty_conditional
    [91, 49, 58, 97, 93, 10, 62, 48, 61, 0, 1, 98, 10,
     91, 51, 58, 99, 93, 10, 62, 48, 61, 0, 1, 100, 10]
    [⟨[97], 1, [⟨0, 0, [98], [255], 1, 1⟩]⟩,
     ⟨[99], 3, [⟨0, 0, [100], [255], 1, 1⟩]⟩]
    (by simp [headerFollowedByContent, readLine, cutByte])
    (by
      rw [show readSections
        [91, 49, 58, 97, 93, 10, 62, 48, 61, 0, 1, 98, 10,
         91, 51, 58, 99, 93, 10, 62, 48, 61, 0, 1, 100, 10]
        = readSectionsLoop
          [91, 49, 58, 97, 93, 10, 62, 48, 61, 0, 1, 98, 10,
           91, 51, 58, 99, 93, 10, 62, 48, 61, 0, 1, 100, 10] []
        from rfl]
      rw [readSectionsLoop_header
        (by decide : readLine
          [91, 49, 58, 97, 93, 10, 62, 48, 61, 0, 1, 98, 10,
           91, 51, 58, 99, 93, 10, 62, 48, 61, 0, 1, 100, 10] =
          some ([91, 49, 58, 97, 93, 10],
            [62, 48, 61, 0, 1, 98, 10, 91, 51, 58, 99, 93, 10,
             62, 48, 61, 0, 1, 100, 10]))
        (by decide)
        (by decide : readHeader [91, 49, 58, 97, 93, 10] = .ok ⟨[97], 1, []⟩)]
      rw [readSectionsLoop_content
        (by decide : readLine
          [62, 48, 61, 0, 1, 98, 10, 91, 51, 58, 99, 93, 10,
           62, 48, 61, 0, 1, 100, 10] =
          some ([62, 48, 61, 0, 1, 98, 10],
            [91, 51, 58, 99, 93, 10, 62, 48, 61, 0, 1, 100, 10]))
        (by decide) (by decide)
        (by simp [readContent, readContentOffset, readContentSize, readContentValue,
      readContentQualifiers, getUintToken, getOptUintToken, contentSizeStep,
      valueMaskStep, refillValue, readLine, cutByte, parseUint, isDigit] :
          readContent [62, 48, 61, 0, 1, 98, 10]
            [91, 51, 58, 99, 93, 10, 62, 48, 61, 0, 1, 100, 10] =
          .ok (⟨0, 0, [98], [255], 1, 1⟩,
            [91, 51, 58, 99, 93, 10, 62, 48, 61, 0, 1, 100, 10]))]
      rw [readSectionsLoop_header
        (by decide : readLine
          [91, 51, 58, 99, 93, 10, 62, 48, 61, 0, 1, 100, 10] =
          some ([91, 51, 58, 99, 93, 10], [62, 48, 61, 0, 1, 100, 10]))
        (by decide)
        (by decide : readHeader [91, 51, 58, 99, 93, 10] = .ok ⟨[99], 3, []⟩)]
      rw [readSectionsLoop_content
        (by decide : readLine [62, 48, 61, 0, 1, 100, 10] =
          some ([62, 48, 61, 0, 1, 100, 10], []))
        (by decide) (by decide)
        (by simp [readContent, readContentOffset, readContentSize, readContentValue,
      readContentQualifiers, getUintToken, getOptUintToken, contentSizeStep,
      valueMaskStep, refillValue, readLine, cutByte, parseUint, isDigit] :
          readContent [62, 48, 61, 0, 1, 100, 10] [] =
          .ok (⟨0, 0, [100], [255], 1, 1⟩, []))]
      rw [readSectionsLoop_eof (by decide : readLine [] = none)]
      rfl)
    ⟨[99], 3, [⟨0, 0, [100], [255], 1, 1⟩]⟩ (by decide)

/-- C6 counterexample: a stream whose only post-signature line is the
header for priority 2 and filetype x decodes successfully to one section
with an empty contents list, so not every section of a successful decode
has non-empty contents. -/
theorem c6_counterexample :
    decode (magicSign ++ [91, 50, 58, 120, 93, 10]) = .ok [⟨[120], 2, []⟩] ∧
    ¬ (∀ sec ∈ [(⟨[120], 2, []⟩ : Section)], sec.contents ≠ []) := by
  constructor
  · rw [decode_signed]
    rw [show readSections [91, 50, 58, 120, 93, 10]
      = readSectionsLoop [91, 50, 58, 120, 93, 10] [] from rfl]
    rw [readSectionsLoop_header
      (by decide : readLine [91, 50, 58, 120, 93, 10] =
        some ([91, 50, 58, 120, 93, 10], []))
      (by decide)
      (by decide : readHeader [91, 50, 58, 120, 93, 10] = .ok ⟨[120], 2, []⟩)]
    rw [readSectionsLoop_eof (by decide : readLine [] = none)]
    rfl
  · decide

/-- C7 (corrected).  When no ampersand occurs in the consumed bytes the
mask is defaulted to 0xff repeated exactly the declared 2-byte LENGTH:
the big-endian field that contentSizeStep reads from the remainder b2
left by the offset cut, a length tied to the LENGTH field and not to the
value; when an ampersand is found the mask is the raw tail after the
first ampersand with no length check against the value. -/
theorem c7_mask_shape :
    (∀ (buff s : List Nat) (c : Content) (s2 : List Nat) (ind offset : Nat)
      (b1 b2 : List Nat),
      ¬ 38 ∈ buff → ¬ 38 ∈ s →
      (getUintToken buff 62 = .ok ind b1 ∨
        getUintToken buff 62 = .notFound b1) →
      getUintToken b1 61 = .ok offset b2 →
      readContent buff s = .ok (c, s2) →
      c.mask = List.replicate (contentSizeStep b2).1 255 ∧
        c.mask.length = (contentSizeStep b2).1) ∧
    (∀ (size : Nat) (buff v m : List Nat),
      cutByte buff 38 = some (v, m) → valueMaskStep size buff = (v, m)) := by
  constructor
  · intro buff s c s2 ind offset b1 b2 h38 hs38 h1 h2 h
    obtain ⟨i, buffQ, hmem, hq⟩ := readContent_stage_decomp h1 h2 h
    have n38 : ¬ 38 ∈ buffQ := fun hx => (hmem 38 hx).elim h38 hs38
    unfold readContentQualifiers at hq
    cases hq1 : getOptUintToken buffQ 43 with
    | crash => simp only [hq1] at hq; cases hq
    | corrupted => simp only [hq1] at hq; cases hq
    | ok rl b6 =>
      simp only [hq1] at hq
      have n38b6 : ¬ 38 ∈ b6 :=
        fun hx => n38 (getOptUintToken_ok_subset hq1 38 hx)
      cases hq2 : getOptUintToken b6 126 with
      | crash => simp only [hq2] at hq; cases hq
      | corrupted => simp only [hq2] at hq; cases hq
      | ok ws b7 =>
        simp only [hq2] at hq
        have n38b7 : ¬ 38 ∈ b7 :=
          fun hx => n38b6 (getOptUintToken_ok_subset hq2 38 hx)
        have hvm : valueMaskStep (contentSizeStep b2).1 b7 =
            (b7, List.replicate (contentSizeStep b2).1 255) := by
          unfold valueMaskStep
          rw [cutByte_of_not_mem n38b7]
        simp only [hvm] at hq
        injection hq with hq
        injection hq with h3 h4
        rw [← h3]
        exact ⟨rfl, by simp⟩
  · intro size buff v m h
    unfold valueMaskStep
    rw [h]

/-- C7 witness: on the line with declared LENGTH 1 and value X without
an ampersand, the offset cut leaves b2 with the length field 0x00 0x01
in front and the defaulted mask is 0xff repeated that declared length 1;
the buffer A ampersand B cuts into value A and mask B. -/
theorem c7_mask_shape_witness :
    ((⟨0, 0, [88], [255], 1, 1⟩ : Content).mask =
      List.replicate (contentSizeStep [0, 1, 88, 10]).1 255 ∧
     (⟨0, 0, [88], [255], 1, 1⟩ : Content).mask.length =
      (contentSizeStep [0, 1, 88, 10]).1) ∧
    valueMaskStep 1 [65, 38, 66] = ([65], [66]) :=
  ⟨c7_mask_shape.1 [62, 48, 61, 0, 1, 88, 10] []
      ⟨0, 0, [88], [255], 1, 1⟩ [] 0 0 [48, 61, 0, 1, 88, 10] [0, 1, 88, 10]
      (by decide) (by decide) (Or.inr (by decide)) (by decide)
      (by simp [readContent, readContentOffset, readContentSize, readContentValue,
      readContentQualifiers, getUintToken, getOptUintToken, contentSizeStep,
      valueMaskStep, refillValue, readLine, cutByte, parseUint, isDigit]),
   c7_mask_shape.2 1 [65, 38, 66] [65] [66] (by decide)⟩

/-- C7 counterexample: the content line 0x3e 0x30 0x3d 0x00 0x01 0x41
0x26 0x42 0x43 0x0a parses successfully into value A (length 1) and mask
B C (length 2), so the invariant that the mask length equals the value
length fails on a successful parse. -/
theorem c7_counterexample :
    readContent [62, 48, 61, 0, 1, 65, 38, 66, 67, 10] [] =
      .ok (⟨0, 0, [65], [66, 67], 1, 1⟩, []) ∧
    ¬ ([66, 67] : List Nat).length = ([65] : List Nat).length := by
  constructor
  · simp [readContent, readContentOffset, readContentSize, readContentValue,
      readContentQualifiers, getUintToken, getOptUintToken, contentSizeStep,
      valueMaskStep, refillValue, readLine, cutByte, parseUint, isDigit]
  · decide

/-- C8 (corrected).  A content line read before any section header makes
decode fail with HeaderCorrupted; a header line of at least 3 bytes with
no colon in its sliced middle, or with a non-numeric priority, yields
HeaderCorrupted; a content line with no greater-than byte, or with no
equals byte, yields ContentCorrupted.  The length bound on header lines
is needed because a 2-byte header line makes the slice panic instead of
returning HeaderCorrupted. -/
theorem c8_error_classification :
    (∀ (rest line s1 : List Nat), readLine rest = some (line, s1) →
      ¬ line.headD 0 = 91 →
      decode (magicSign ++ rest) = .err .headerCorrupted) ∧
    (∀ line : List Nat, 3 ≤ line.length →
      cutByte ((line.drop 1).take (line.length - 3)) 58 = none →
      readHeader line = .err .headerCorrupted) ∧
    (∀ (line pr ft : List Nat), 3 ≤ line.length →
      cutByte ((line.drop 1).take (line.length - 3)) 58 = some (pr, ft) →
      parseUint pr = none → readHeader line = .err .headerCorrupted) ∧
    (∀ (buff s : List Nat), ¬ 62 ∈ buff →
      readContent buff s = .err .contentCorrupted) ∧
    (∀ (buff s : List Nat), ¬ 61 ∈ buff →
      readContent buff s = .err .contentCorrupted) := by
  refine ⟨?_, ?_, ?_, ?_, ?_⟩
  · intro rest line s1 hr hh
    rw [decode_signed]
    exact readSectionsLoop_noHeader hr hh
  · intro line hlen hcut
    unfold readHeader
    rw [if_neg (by omega)]
    rw [hcut]
  · intro line pr ft hlen hcut hp
    unfold readHeader
    rw [if_neg (by omega)]
    simp only [hcut, hp]
  · intro buff s h62
    unfold readContent
    simp only [getUintToken_not_mem h62]
  · intro buff s h61
    unfold readContent
    cases h1 : getUintToken buff 62 with
    | corrupted => simp [h1]
    | ok ind b1 =>
      have h61b1 : ¬ 61 ∈ b1 := fun hx => h61 (getUintToken_ok_subset h1 61 hx)
      simp only [h1]
      unfold readContentOffset
      simp only [getUintToken_not_mem h61b1]
    | notFound b1 =>
      have h61b1 : ¬ 61 ∈ b1 :=
        fun hx => h61 (getUintToken_notFound_subset h1 61 hx)
      simp only [h1]
      unfold readContentOffset
      simp only [getUintToken_not_mem h61b1]

/-- C8 witness: a content line first thing after the signature gives
HeaderCorrupted; a 3-byte header line with no colon and a header line
with the non-numeric priority x give HeaderCorrupted; a line without
greater-than and a line without equals give ContentCorrupted. -/
theorem c8_error_classification_witness :
    decode (magicSign ++ [62, 10]) = .err .headerCorrupted ∧
    readHeader [91, 120, 10] = .err .headerCorrupted ∧
    readHeader [91, 120, 58, 121, 93, 10] = .err .headerCorrupted ∧
    readContent [97, 10] [] = .err .contentCorrupted ∧
    readContent [62, 48, 10] [] = .err .contentCorrupted :=
  ⟨c8_error_classification.1 [62, 10] [62, 10] [] (by decide) (by decide),
   c8_error_classification.2.1 [91, 120, 10] (by decide) (by decide),
   c8_error_classification.2.2.1 [91, 120, 58, 121, 93, 10] [120] [121]
     (by decide) (by decide) (by decide),
   c8_error_classification.2.2.2.1 [97, 10] [] (by decide),
   c8_error_classification.2.2.2.2 [62, 48, 10] [] (by decide)⟩

/-- C8 counterexample: the 2-byte header line bracket newline lacks a
colon, but instead of failing with HeaderCorrupted the header parser
panics on the out-of-range slice buff[1 : len(buff)-2]. -/
theorem c8_counterexample :
    readHeader [91, 10] = .crash ∧
    ¬ readHeader [91, 10] = .err .headerCorrupted := by
  decide

/-- C9 (confirmed).  On a stream of at least 12 bytes the decoder
compares the first 12 bytes with the signature MIME-Magic NUL newline:
on a match it proceeds to section parsing on exactly the rest of the
stream, and on any mismatch it fails with NotMagicFormat before any
section parsing. -/
theorem c9_signature_check :
    ∀ s : List Nat, 12 ≤ s.length →
      ((s.take 12 = magicSign → decode s = readSections (s.drop 12)) ∧
       (¬ s.take 12 = magicSign → decode s = .err .notMagicFormat)) := by
  intro s hlen
  have hne : s.isEmpty = false := by
    cases s with
    | nil => simp at hlen
    | cons a t => rfl
  have hmin : min 12 s.length = 12 := by omega
  have hch : checkMagicHeader s =
      (if magicSign = s.take 12 then .ok (s.drop 12)
       else .err .notMagicFormat) := by
    unfold checkMagicHeader
    rw [hne]
    simp only [Bool.false_eq_true, if_false, hmin]
    simp
  constructor
  · intro ht
    unfold decode
    rw [hch, if_pos ht.symm]
  · intro ht
    unfold decode
    rw [hch, if_neg (fun hp => ht hp.symm)]

/-- C9 witness: the bare signature decodes past its 12 bytes into
section parsing of the empty rest; twelve zero bytes fail with
NotMagicFormat. -/
theorem c9_signature_check_witness :
    decode magicSign = readSections (magicSign.drop 12) ∧
    decode [0, 0, 0, 0, 0, 0, 0, 0, 0, 0, 0, 0] = .err .notMagicFormat :=
  ⟨(c9_signature_check magicSign (by decide)).1 (by decide),
   (c9_signature_check [0, 0, 0, 0, 0, 0, 0, 0, 0, 0, 0, 0]
     (by decide)).2 (by decide)⟩

/-- C10 (corrected).  Header parsing stays in bounds only for lines of at
least 3 bytes, and the qualifier lookahead stays in bounds only when the
delimiter cut leaves a non-empty right part; under those hypotheses no
panic happens, while the excluded cases (2-byte header line, trailing
bare delimiter) do panic, as the counterexample shows. -/
theorem c10_no_panic_conditional :
    (∀ line : List Nat, 3 ≤ line.length → ¬ readHeader line = .crash) ∧
    (∀ (buff : List Nat) (del : Nat),
      (match cutByte buff del with
        | some (_, r) => r ≠ []
        | none => True) → ¬ getOptUintToken buff del = .crash) := by
  constructor
  · intro line hlen
    unfold readHeader
    rw [if_neg (by omega)]
    cases hc : cutByte ((line.drop 1).take (line.length - 3)) 58 with
    | none => simp
    | some p =>
      obtain ⟨pr, ft⟩ := p
      simp only
      cases hp : parseUint pr with
      | none => simp [hp]
      | some n => simp [hp]
  · intro buff del hcut
    unfold getOptUintToken
    cases hc : cutByte buff del with
    | none => simp [hc]
    | some p =>
      obtain ⟨l, r⟩ := p
      rw [hc] at hcut
      simp only [hc]
      cases r with
      | nil => exact absurd rfl hcut
      | cons b bs =>
        by_cases hd : isDigit b
        · simp only [hd, if_true]
          cases hp : parseUint (b :: bs) with
          | none => simp [hp]
          | some v => simp [hp]
        · simp [hd]

/-- C10 witness: a full 7-byte header line does not panic, and a
qualifier cut whose delimiter is followed by a digit does not panic. -/
theorem c10_no_panic_conditional_witness :
    ¬ readHeader [91, 53, 48, 58, 120, 93, 10] = .crash ∧
    ¬ getOptUintToken [43, 53] 43 = .crash :=
  ⟨c10_no_panic_conditional.1 [91, 53, 48, 58, 120, 93, 10] (by decide),
   c10_no_panic_conditional.2 [43, 53] 43 (by simp [cutByte])⟩

/-- C10 counterexample: decoding a stream whose only post-signature line
is the 2-byte header line bracket newline ends in a runtime panic of the
header slice, so parsing does not always complete without a panic. -/
theorem c10_counterexample :
    decode (magicSign ++ [91, 10]) = .crash := by
  rw [decode_signed]
  rw [show readSections [91, 10] = readSectionsLoop [91, 10] [] from rfl]
  rw [readSectionsLoop_header_crash
    (by decide : readLine [91, 10] = some ([91, 10], []))
    (by decide)
    (by decide : readHeader [91, 10] = .crash)]
